import Mathlib

/-
Shallow embedding of the calendar-to-job inference engine of the
Airbnb-cleaner repository (the calendar sync edge function and its
client-side twin in the iCal utilities module).

Timestamps are modelled as natural numbers of milliseconds since the Unix
epoch, in UTC (the runtime of the edge function operates in UTC, so the
JavaScript local-midnight truncation `setHours(0,0,0,0)` coincides with
UTC-day truncation, and `toISOString().split("T")[0]` is the UTC day).
-/

/-- Milliseconds in one calendar day. -/
def msPerDay : Nat := 86400000

/-- Truncate a timestamp to midnight of its calendar day, as
`d.setHours(0,0,0,0)` does in UTC. -/
def truncToDay (t : Nat) : Nat := t / msPerDay * msPerDay

/-- The calendar-day index of a timestamp: the date portion kept by
`date.toISOString().split("T")[0]`. -/
def dateOnly (t : Nat) : Nat := t / msPerDay

/-- Substring occurrence test on character lists, modelling JavaScript
`String.prototype.includes`. -/
def listIncludes (sub : List Char) : List Char → Bool
  | [] => sub.isPrefixOf []
  | c :: cs => sub.isPrefixOf (c :: cs) || listIncludes sub cs

/-- JavaScript `s.includes(sub)`. -/
def strIncludes (s sub : String) : Bool := listIncludes sub.data s.data

/-- Character-wise ASCII lowercasing, modelling JavaScript
`String.prototype.toLowerCase` on the ASCII labels the feeds carry. -/
def strToLower (s : String) : String := String.mk (s.data.map Char.toLower)

/-- Blocked-label classification shared by both use sites in
`extractCheckouts` and by `detectSameDayTurnaround`:
the lowercased summary contains "blocked", "unavailable" or
"not available", or equals "busy". -/
def isBlocked (summary : String) : Bool :=
  let s := strToLower summary
  strIncludes s "blocked" ||
  strIncludes s "unavailable" ||
  strIncludes s "not available" ||
  s == "busy"

/-- A normalized calendar event, the `ICalEvent` interface of the source. -/
structure ICalEvent where
  uid : String
  summary : String
  description : String
  start : Nat
  «end» : Nat
  location : String
  deriving Repr, DecidableEq

/-- A raw VEVENT sub-record as surfaced by the ical.js library before the
source normalizes it: every field may be missing. -/
structure RawVEvent where
  uid : Option String
  summary : Option String
  description : Option String
  start : Option Nat
  «end» : Option Nat
  location : Option String
  deriving Repr, DecidableEq

/-- JavaScript `x || d` for a possibly-missing string: missing and empty
strings are falsy and fall through to the default. -/
def jsOrDefault (x : Option String) (d : String) : String :=
  match x with
  | none => d
  | some s => if s = "" then d else s

/-- Normalization of one VEVENT inside `parseICalData`: an entry without a
start time is dropped, a missing end time becomes the start time, and the
summary defaults to "Untitled Event". -/
def parseEntry (v : RawVEvent) : Option ICalEvent :=
  match v.start with
  | none => none
  | some s =>
    some
      { uid := jsOrDefault v.uid ""
        summary := jsOrDefault v.summary "Untitled Event"
        description := jsOrDefault v.description ""
        start := s
        «end» := v.«end».getD s
        location := jsOrDefault v.location "" }

/-- The per-event body of `parseICalData`: each well-formed VEVENT yields
one normalized event, entries without a start time are skipped. -/
def parseICalData (entries : List RawVEvent) : List ICalEvent :=
  entries.filterMap parseEntry

/-- Stable insertion of an event into a list sorted by ascending end time. -/
def insertByEnd (e : ICalEvent) : List ICalEvent → List ICalEvent
  | [] => [e]
  | f :: fs => if f.«end» < e.«end» then f :: insertByEnd e fs else e :: f :: fs

/-- Stable sort by ascending end time, modelling
`[...events].sort((a, b) => a.end.getTime() - b.end.getTime())`
(JavaScript array sort is stable). -/
def sortByEnd (events : List ICalEvent) : List ICalEvent :=
  events.foldr insertByEnd []

/-- The `detectSameDayTurnaround` function: some event in the list starts
on the calendar day of the checkout and is not blocked. -/
def detectSameDayTurnaround (checkoutDate : Nat) (events : List ICalEvent) : Bool :=
  events.any fun e =>
    truncToDay e.start == truncToDay checkoutDate && !(isBlocked e.summary)

/-- A derived checkout, the `ParsedCheckout` interface of the source. -/
structure ParsedCheckout where
  date : Nat
  event : ICalEvent
  has_same_day_checkin : Bool
  next_checkin_date : Option Nat
  deriving Repr, DecidableEq

/-- The loop body of `extractCheckouts` over the sorted event list:
blocked events are skipped; every other event at position i yields one
checkout whose date is the event end, whose same-day flag scans the whole
sorted list, and whose next check-in is the start of the first non-blocked
event after position i. -/
def extractCheckoutsAux (allEvents : List ICalEvent) : List ICalEvent → List ParsedCheckout
  | [] => []
  | e :: rest =>
    if isBlocked e.summary then extractCheckoutsAux allEvents rest
    else
      { date := e.«end»
        event := e
        has_same_day_checkin := detectSameDayTurnaround e.«end» allEvents
        next_checkin_date :=
          (rest.find? fun n => !(isBlocked n.summary)).map (·.start) }
        :: extractCheckoutsAux allEvents rest

/-- The `extractCheckouts` function: sort by end time, then run the loop. -/
def extractCheckouts (events : List ICalEvent) : List ParsedCheckout :=
  extractCheckoutsAux (sortByEnd events) (sortByEnd events)

/-- The `filterUpcomingCheckouts` function, with the reference clock made
explicit: keep checkouts whose day-truncated date lies between the
day-truncated now and now plus `days` days, both bounds inclusive. -/
def filterUpcomingCheckouts (checkouts : List ParsedCheckout) (days : Nat)
    (now : Nat) : List ParsedCheckout :=
  let today := truncToDay now
  let futureDate := today + days * msPerDay
  checkouts.filter fun c =>
    decide (today ≤ truncToDay c.date) && decide (truncToDay c.date ≤ futureDate)

/-- A row of the properties table, the fields the sync pass reads or
writes. -/
structure PropertyRow where
  id : String
  user_id : String
  name : String
  ical_url : String
  active : Bool
  last_synced : Option Nat
  sync_error : Option String
  deriving Repr, DecidableEq

/-- The record inserted into the cleaning_jobs table for a new checkout. -/
structure JobRecord where
  property_id : String
  cleaner_id : Option String
  checkout_date : Nat
  checkin_date : Option Nat
  status : String
  is_same_day_turnaround : Bool
  deriving Repr, DecidableEq

/-- The insert payload built for one checkout inside the loop of
`syncProperty`: the checkout date and check-in date are reduced to their
date portions, the status starts as pending, and the same-day flag is
copied from the checkout. -/
def mkJob (pid : String) (cleanerId : Option String) (c : ParsedCheckout) : JobRecord :=
  { property_id := pid
    cleaner_id := cleanerId
    checkout_date := dateOnly c.date
    checkin_date := c.next_checkin_date.map dateOnly
    status := "pending"
    is_same_day_turnaround := c.has_same_day_checkin }

/-- Outcome of processing one checkout in the reconcile loop. -/
inductive ReconcileOutcome where
  | created
  | skippedExisting
  | checkFailed
  | insertFailed
  deriving Repr, DecidableEq

/-- State threaded through the reconcile loop of `syncProperty`: the
persisted job keys (checkout-date day indices) for the property, the jobs
inserted so far, and the jobs_created counter. -/
structure ReconcileState where
  keys : List Nat
  created : List JobRecord
  jobs_created : Nat
  deriving Repr, DecidableEq

/-- One iteration of the checkout loop in `syncProperty`: query the
existing jobs for (property, date portion) — a query error skips the
checkout; a non-empty result skips it as already existing; otherwise the
job is inserted — an insert error skips the checkout without counting it,
a successful insert records the job, its key, and increments the counter.
The parameters checkOk and insertOk model whether the database select and
insert calls succeed. -/
def processCheckout (pid : String) (cleanerId : Option String)
    (checkOk : Nat → Bool) (insertOk : JobRecord → Bool)
    (st : ReconcileState) (c : ParsedCheckout) :
    ReconcileState × ReconcileOutcome :=
  let dateStr := dateOnly c.date
  if !(checkOk dateStr) then (st, ReconcileOutcome.checkFailed)
  else if st.keys.contains dateStr then (st, ReconcileOutcome.skippedExisting)
  else
    let job := mkJob pid cleanerId c
    if insertOk job then
      ({ keys := dateStr :: st.keys
         created := st.created ++ [job]
         jobs_created := st.jobs_created + 1 }, ReconcileOutcome.created)
    else (st, ReconcileOutcome.insertFailed)

/-- The checkout loop of `syncProperty`, processing checkouts in order and
emitting one outcome per checkout. -/
def reconcileAux (pid : String) (cleanerId : Option String)
    (checkOk : Nat → Bool) (insertOk : JobRecord → Bool) :
    ReconcileState → List ParsedCheckout → ReconcileState × List ReconcileOutcome
  | st, [] => (st, [])
  | st, c :: cs =>
    let step := processCheckout pid cleanerId checkOk insertOk st c
    let rest := reconcileAux pid cleanerId checkOk insertOk step.1 cs
    (rest.1, step.2 :: rest.2)

/-- The per-property result record, the `SyncResult` interface of the
source. -/
structure SyncResult where
  property_id : String
  property_name : String
  success : Bool
  jobs_created : Nat
  error : Option String
  deriving Repr, DecidableEq

/-- Everything observable about one `syncProperty` call: its returned
result, the persisted job keys after the pass, the jobs it inserted, the
per-checkout outcomes, and the property row after the final update. -/
structure SyncOutcome where
  result : SyncResult
  keys : List Nat
  created : List JobRecord
  outcomes : List ReconcileOutcome
  row : PropertyRow
  deriving Repr, DecidableEq

/-- The `syncProperty` function. The feed parameter is the outcome of
`parseICalFromUrl`: an error value models a thrown fetch, empty-feed or
parse error. On a feed error the catch block records the message in the
result and writes it to sync_error, leaving last_synced untouched. On a
good feed the pipeline extracts checkouts, filters them to the next 30
days, runs the reconcile loop, and finally updates last_synced while
clearing sync_error; the result reports success with the jobs_created
count. -/
def syncProperty (row : PropertyRow) (feed : Except String (List ICalEvent))
    (cleanerId : Option String) (now : Nat) (keys : List Nat)
    (checkOk : Nat → Bool) (insertOk : JobRecord → Bool) : SyncOutcome :=
  match feed with
  | Except.error msg =>
    { result :=
        { property_id := row.id
          property_name := row.name
          success := false
          jobs_created := 0
          error := some msg }
      keys := keys
      created := []
      outcomes := []
      row := { row with sync_error := some msg } }
  | Except.ok events =>
    let upcoming := filterUpcomingCheckouts (extractCheckouts events) 30 now
    let res := reconcileAux row.id cleanerId checkOk insertOk
      { keys := keys, created := [], jobs_created := 0 } upcoming
    { result :=
        { property_id := row.id
          property_name := row.name
          success := true
          jobs_created := res.1.jobs_created
          error := none }
      keys := res.1.keys
      created := res.1.created
      outcomes := res.2
      row := { row with last_synced := some now, sync_error := none } }

/-- The per-property inputs the orchestrator hands to one `syncProperty`
call: the property row, the outcome of fetching and parsing its feed, its
assigned cleaner, its persisted job keys, and the behaviour of its
database calls. -/
structure SyncInput where
  row : PropertyRow
  feed : Except String (List ICalEvent)
  cleanerId : Option String
  keys : List Nat
  checkOk : Nat → Bool
  insertOk : JobRecord → Bool

/-- The aggregate summary computed by the main handler: counts of
successful and failed properties, the total jobs created, and the
per-property detail list. -/
structure SyncSummary where
  synced : Nat
  errors : Nat
  jobs_created : Nat
  details : List SyncResult
  deriving Repr, DecidableEq

/-- The orchestrator loop of the main handler: run `syncProperty` for each
active property in order, then compute the summary from the collected
results. -/
def runSync (now : Nat) (inputs : List SyncInput) :
    List SyncOutcome × SyncSummary :=
  let os := inputs.map fun i =>
    syncProperty i.row i.feed i.cleanerId now i.keys i.checkOk i.insertOk
  let results := os.map (·.result)
  (os,
    { synced := (results.filter (·.success)).length
      errors := (results.filter fun r => !r.success).length
      jobs_created := results.foldl (fun sum r => sum + r.jobs_created) 0
      details := results })

/-- The events of the extracted checkouts are exactly the non-blocked
events of the processed list, in order. -/
theorem extractCheckoutsAux_map_event (allEvents : List ICalEvent) :
    ∀ l : List ICalEvent,
      (extractCheckoutsAux allEvents l).map (·.event) =
        l.filter fun e => !(isBlocked e.summary)
  | [] => rfl
  | e :: rest => by
    by_cases hb : isBlocked e.summary
    · simp [extractCheckoutsAux, hb, List.filter_cons,
        extractCheckoutsAux_map_event allEvents rest]
    · simp [extractCheckoutsAux, hb, List.filter_cons,
        extractCheckoutsAux_map_event allEvents rest]

/-- Every extracted checkout records the end of its event as its date and
the same-day scan over the full list as its flag. -/
theorem mem_extractCheckoutsAux (allEvents : List ICalEvent) :
    ∀ l : List ICalEvent, ∀ c ∈ extractCheckoutsAux allEvents l,
      c.date = c.event.«end» ∧
      c.has_same_day_checkin = detectSameDayTurnaround c.event.«end» allEvents
  | [] => by intro c hc; simp [extractCheckoutsAux] at hc
  | e :: rest => by
    intro c hc
    by_cases hb : isBlocked e.summary
    · rw [extractCheckoutsAux, if_pos hb] at hc
      exact mem_extractCheckoutsAux allEvents rest c hc
    · rw [extractCheckoutsAux, if_neg hb] at hc
      rcases List.mem_cons.mp hc with hc | hc
      · subst hc; exact ⟨rfl, rfl⟩
      · exact mem_extractCheckoutsAux allEvents rest c hc

/-- Inserting an event permutes the consed list. -/
theorem insertByEnd_perm (e : ICalEvent) :
    ∀ l : List ICalEvent, (insertByEnd e l).Perm (e :: l)
  | [] => List.Perm.refl _
  | f :: fs => by
    rw [insertByEnd]
    by_cases h : f.«end» < e.«end»
    · rw [if_pos h]
      exact ((insertByEnd_perm e fs).cons f).trans (List.Perm.swap e f fs)
    · rw [if_neg h]

/-- The sorted event list is a permutation of the input. -/
theorem sortByEnd_perm : ∀ l : List ICalEvent, (sortByEnd l).Perm l
  | [] => List.Perm.refl _
  | e :: rest =>
    (insertByEnd_perm e (sortByEnd rest)).trans ((sortByEnd_perm rest).cons e)

/-- Specification of the same-day scan: it succeeds exactly when some
non-blocked event of the list starts on the calendar day of the checkout. -/
theorem detectSameDayTurnaround_iff (t : Nat) (l : List ICalEvent) :
    detectSameDayTurnaround t l = true ↔
      ∃ e ∈ l, truncToDay e.start = truncToDay t ∧ isBlocked e.summary = false :=
  by simp [detectSameDayTurnaround, List.any_eq_true]

/-- Processing a list that carries a distinguished non-blocked event at a
known position yields the checkout built from that event, whose next
check-in is the start of the first non-blocked event after the position. -/
theorem mem_extractCheckoutsAux_of_decomp (allEvents : List ICalEvent)
    (e : ICalEvent) (l₂ : List ICalEvent) (hb : isBlocked e.summary = false) :
    ∀ l₁ : List ICalEvent,
      ({ date := e.«end»
         event := e
         has_same_day_checkin := detectSameDayTurnaround e.«end» allEvents
         next_checkin_date :=
           (l₂.find? fun n => !(isBlocked n.summary)).map (·.start) } :
            ParsedCheckout) ∈ extractCheckoutsAux allEvents (l₁ ++ e :: l₂)
  | [] => by
    rw [List.nil_append, extractCheckoutsAux, if_neg (by simp [hb])]
    exact List.mem_cons_self _ _
  | f :: fs => by
    rw [List.cons_append, extractCheckoutsAux]
    by_cases hf : isBlocked f.summary
    · rw [if_pos hf]
      exact mem_extractCheckoutsAux_of_decomp allEvents e l₂ hb fs
    · rw [if_neg hf]
      exact List.mem_cons_of_mem _
        (mem_extractCheckoutsAux_of_decomp allEvents e l₂ hb fs)

/-- Every non-blocked event of the input yields a checkout dated at its
end. -/
theorem exists_checkout_of_mem (events : List ICalEvent) (e : ICalEvent)
    (he : e ∈ events) (hb : isBlocked e.summary = false) :
    ∃ c ∈ extractCheckouts events, c.event = e ∧ c.date = e.«end» := by
  have hmem : e ∈ (extractCheckouts events).map (·.event) := by
    rw [extractCheckouts, extractCheckoutsAux_map_event]
    have : e ∈ (events.filter fun x => !(isBlocked x.summary)) :=
      List.mem_filter.mpr ⟨he, by simp [hb]⟩
    exact (((sortByEnd_perm events).filter _).mem_iff).mpr this
  rcases List.mem_map.mp hmem with ⟨c, hc, hce⟩
  exact ⟨c, hc, hce, by
    rw [← hce]
    exact (mem_extractCheckoutsAux _ _ c hc).1⟩

/-- The reconcile loop emits exactly one outcome per checkout. -/
theorem reconcileAux_length (pid : String) (cleanerId : Option String)
    (checkOk : Nat → Bool) (insertOk : JobRecord → Bool) :
    ∀ (st : ReconcileState) (cs : List ParsedCheckout),
      (reconcileAux pid cleanerId checkOk insertOk st cs).2.length = cs.length
  | _, [] => rfl
  | st, c :: cs => by
    rw [reconcileAux]
    simpa using reconcileAux_length pid cleanerId checkOk insertOk _ cs

/-- One step of the reconcile loop never removes a persisted key. -/
theorem processCheckout_keys_mono (pid : String) (cleanerId : Option String)
    (checkOk : Nat → Bool) (insertOk : JobRecord → Bool)
    (st : ReconcileState) (c : ParsedCheckout) (k : Nat) (hk : k ∈ st.keys) :
    k ∈ (processCheckout pid cleanerId checkOk insertOk st c).1.keys := by
  rw [processCheckout]
  dsimp only
  split
  · exact hk
  · split
    · exact hk
    · split
      · exact List.mem_cons_of_mem _ hk
      · exact hk

/-- The reconcile loop never removes a persisted key. -/
theorem reconcileAux_keys_mono (pid : String) (cleanerId : Option String)
    (checkOk : Nat → Bool) (insertOk : JobRecord → Bool) :
    ∀ (st : ReconcileState) (cs : List ParsedCheckout) (k : Nat),
      k ∈ st.keys →
      k ∈ (reconcileAux pid cleanerId checkOk insertOk st cs).1.keys
  | _, [], _, hk => hk
  | st, c :: cs, k, hk => by
    rw [reconcileAux]
    exact reconcileAux_keys_mono pid cleanerId checkOk insertOk _ cs k
      (processCheckout_keys_mono pid cleanerId checkOk insertOk st c k hk)

/-- When every database call succeeds, the date key of every processed
checkout is persisted by the end of the loop. -/
theorem reconcileAux_covers (pid : String) (cleanerId : Option String) :
    ∀ (st : ReconcileState) (cs : List ParsedCheckout) (c : ParsedCheckout),
      c ∈ cs →
      dateOnly c.date ∈
        (reconcileAux pid cleanerId (fun _ => true) (fun _ => true) st cs).1.keys
  | st, c :: cs, x, hx => by
    rw [reconcileAux]
    rcases List.mem_cons.mp hx with hx | hx
    · subst hx
      refine reconcileAux_keys_mono pid cleanerId _ _ _ cs _ ?_
      rw [processCheckout]
      simp only [Bool.not_true, Bool.false_eq_true, if_false]
      split
      · next h => exact List.mem_of_elem_eq_true h
      · exact List.mem_cons_self _ _
    · exact reconcileAux_covers pid cleanerId _ cs x hx

/-- Case analysis for one reconcile step: the state is unchanged and the
checkout is skipped, or a job is created, its key recorded, and the
counter incremented; creation happens only when the insert succeeds and
the key was not yet persisted. -/
theorem processCheckout_cases (pid : String) (cleanerId : Option String)
    (checkOk : Nat → Bool) (insertOk : JobRecord → Bool)
    (st : ReconcileState) (c : ParsedCheckout) :
    processCheckout pid cleanerId checkOk insertOk st c =
        (st, ReconcileOutcome.checkFailed) ∨
    processCheckout pid cleanerId checkOk insertOk st c =
        (st, ReconcileOutcome.skippedExisting) ∨
    processCheckout pid cleanerId checkOk insertOk st c =
        (st, ReconcileOutcome.insertFailed) ∨
    (processCheckout pid cleanerId checkOk insertOk st c =
        ({ keys := dateOnly c.date :: st.keys
           created := st.created ++ [mkJob pid cleanerId c]
           jobs_created := st.jobs_created + 1 }, ReconcileOutcome.created) ∧
      insertOk (mkJob pid cleanerId c) = true ∧
      dateOnly c.date ∉ st.keys) := by
  rw [processCheckout]
  dsimp only
  split
  · left; rfl
  · split
    · right; left; rfl
    · split
      · next hmem hins =>
        right; right; right
        exact ⟨rfl, hins, by simpa using hmem⟩
      · right; right; left; rfl

/-- The reconcile loop counts exactly the created outcomes: the number of
inserted jobs and the jobs_created counter both grow by the number of
created outcomes. -/
theorem reconcileAux_counts (pid : String) (cleanerId : Option String)
    (checkOk : Nat → Bool) (insertOk : JobRecord → Bool) :
    ∀ (st : ReconcileState) (cs : List ParsedCheckout),
      (reconcileAux pid cleanerId checkOk insertOk st cs).1.created.length =
        st.created.length +
          (reconcileAux pid cleanerId checkOk insertOk st cs).2.count
            ReconcileOutcome.created ∧
      (reconcileAux pid cleanerId checkOk insertOk st cs).1.jobs_created =
        st.jobs_created +
          (reconcileAux pid cleanerId checkOk insertOk st cs).2.count
            ReconcileOutcome.created
  | st, [] => by simp [reconcileAux]
  | st, c :: cs => by
    have ihgen : ∀ st1 : ReconcileState,
        (reconcileAux pid cleanerId checkOk insertOk st1 cs).1.created.length =
          st1.created.length +
            (reconcileAux pid cleanerId checkOk insertOk st1 cs).2.count
              ReconcileOutcome.created ∧
        (reconcileAux pid cleanerId checkOk insertOk st1 cs).1.jobs_created =
          st1.jobs_created +
            (reconcileAux pid cleanerId checkOk insertOk st1 cs).2.count
              ReconcileOutcome.created :=
      fun st1 => reconcileAux_counts pid cleanerId checkOk insertOk st1 cs
    rcases processCheckout_cases pid cleanerId checkOk insertOk st c with
      h | h | h | ⟨h, -, -⟩
    case _ | _ | _ =>
      simp only [reconcileAux, h]
      have h1 := (ihgen st).1
      have h2 := (ihgen st).2
      constructor
      · simp only [List.count_cons] at h1 ⊢
        simp at h1 ⊢
        omega
      · simp only [List.count_cons] at h2 ⊢
        simp at h2 ⊢
        omega
    case _ =>
      simp only [reconcileAux, h]
      have h1 := (ihgen
        { keys := dateOnly c.date :: st.keys
          created := st.created ++ [mkJob pid cleanerId c]
          jobs_created := st.jobs_created + 1 }).1
      have h2 := (ihgen
        { keys := dateOnly c.date :: st.keys
          created := st.created ++ [mkJob pid cleanerId c]
          jobs_created := st.jobs_created + 1 }).2
      constructor
      · simp only [List.count_cons] at h1 ⊢
        simp only [List.length_append] at h1
        simp at h1 ⊢
        omega
      · simp only [List.count_cons] at h2 ⊢
        simp at h2 ⊢
        omega

/-- Every job inserted by the reconcile loop passed the insert call and
had no persisted job with its key when the loop started. -/
theorem reconcileAux_created_mem (pid : String) (cleanerId : Option String)
    (checkOk : Nat → Bool) (insertOk : JobRecord → Bool) :
    ∀ (st : ReconcileState) (cs : List ParsedCheckout) (j : JobRecord),
      j ∈ (reconcileAux pid cleanerId checkOk insertOk st cs).1.created →
      j ∈ st.created ∨ (insertOk j = true ∧ j.checkout_date ∉ st.keys)
  | st, [], j, hj => Or.inl hj
  | st, c :: cs, j, hj => by
    rcases processCheckout_cases pid cleanerId checkOk insertOk st c with
      h | h | h | ⟨h, hins, hkey⟩
    · rw [reconcileAux] at hj; rw [h] at hj
      exact reconcileAux_created_mem pid cleanerId checkOk insertOk st cs j hj
    · rw [reconcileAux] at hj; rw [h] at hj
      exact reconcileAux_created_mem pid cleanerId checkOk insertOk st cs j hj
    · rw [reconcileAux] at hj; rw [h] at hj
      exact reconcileAux_created_mem pid cleanerId checkOk insertOk st cs j hj
    · rw [reconcileAux] at hj; rw [h] at hj
      rcases reconcileAux_created_mem pid cleanerId checkOk insertOk _ cs j hj with
        hmem | ⟨hok, hnk⟩
      · rcases List.mem_append.mp hmem with hmem | hmem
        · exact Or.inl hmem
        · have hj2 : j = mkJob pid cleanerId c := by simpa using hmem
          subst hj2
          exact Or.inr ⟨hins, by simpa [mkJob] using hkey⟩
      · refine Or.inr ⟨hok, fun hk => hnk ?_⟩
        exact List.mem_cons_of_mem _ hk

/-- When the existence check succeeds and every processed checkout already
has a persisted job with its date key, the reconcile loop changes nothing
and reports every checkout as skipped-existing. -/
theorem reconcileAux_skips (pid : String) (cleanerId : Option String)
    (insertOk : JobRecord → Bool) :
    ∀ (st : ReconcileState) (cs : List ParsedCheckout),
      (∀ c ∈ cs, dateOnly c.date ∈ st.keys) →
      reconcileAux pid cleanerId (fun _ => true) insertOk st cs =
        (st, List.replicate cs.length ReconcileOutcome.skippedExisting)
  | _, [], _ => rfl
  | st, c :: cs, h => by
    have hc : st.keys.contains (dateOnly c.date) = true := by
      simpa using h c (List.mem_cons_self c cs)
    have hstep : processCheckout pid cleanerId (fun _ => true) insertOk st c =
        (st, ReconcileOutcome.skippedExisting) := by
      rw [processCheckout]
      simp only [Bool.not_true, Bool.false_eq_true, if_false]
      rw [if_pos hc]
    simp only [reconcileAux, hstep]
    rw [reconcileAux_skips pid cleanerId insertOk st cs
      (fun x hx => h x (List.mem_cons_of_mem c hx))]
    simp [List.replicate_succ]

/-- Sample booking matching the same-day example of the spec: stay from
Jan 10 14:00 to Jan 12 11:00. -/
def sampleBookingA : ICalEvent :=
  { uid := "a", summary := "Booking A", description := ""
    start := 9 * msPerDay + 14 * 3600000
    «end» := 11 * msPerDay + 11 * 3600000, location := "" }

/-- Sample booking matching the same-day example of the spec: stay from
Jan 12 15:00 to Jan 15 11:00. -/
def sampleBookingB : ICalEvent :=
  { uid := "b", summary := "Booking B", description := ""
    start := 11 * msPerDay + 15 * 3600000
    «end» := 14 * msPerDay + 11 * 3600000, location := "" }

/-- Sample blocked range with summary "Blocked". -/
def sampleBlocked : ICalEvent :=
  { uid := "x", summary := "Blocked", description := ""
    start := 20 * msPerDay, «end» := 22 * msPerDay, location := "" }

/-- The checkout the extractor derives for the first sample booking. -/
def sampleCheckoutA : ParsedCheckout :=
  { date := 11 * msPerDay + 11 * 3600000
    event := sampleBookingA
    has_same_day_checkin := true
    next_checkin_date := some (11 * msPerDay + 15 * 3600000) }

/-- C3. Blocked exclusion: the events of the extracted checkouts are, up
to the sorting permutation, exactly the non-blocked input events — a
blocked event yields no checkout and every non-blocked event yields
exactly one — the output contains no blocked event, and every checkout is
dated at the end of its event. -/
theorem blocked_events_excluded (events : List ICalEvent) :
    ((extractCheckouts events).map (·.event)).Perm
      (events.filter fun e => !(isBlocked e.summary)) ∧
    (∀ c ∈ extractCheckouts events, isBlocked c.event.summary = false) ∧
    ∀ c ∈ extractCheckouts events, c.date = c.event.«end» := by
  have hperm : ((extractCheckouts events).map (·.event)).Perm
      (events.filter fun e => !(isBlocked e.summary)) := by
    rw [extractCheckouts, extractCheckoutsAux_map_event]
    exact (sortByEnd_perm events).filter _
  refine ⟨hperm, ?_, ?_⟩
  · intro c hc
    have : c.event ∈ events.filter fun e => !(isBlocked e.summary) :=
      hperm.mem_iff.mp (List.mem_map.mpr ⟨c, hc, rfl⟩)
    simpa using (List.mem_filter.mp this).2
  · intro c hc
    exact (mem_extractCheckoutsAux _ _ c hc).1

/-- Witness for C3 at a concrete feed with one blocked and two real
bookings. -/
theorem blocked_events_excluded_witness :
    ((extractCheckouts [sampleBlocked, sampleBookingA, sampleBookingB]).map
        (·.event)).Perm
      ([sampleBlocked, sampleBookingA, sampleBookingB].filter fun e =>
        !(isBlocked e.summary)) ∧
    isBlocked sampleCheckoutA.event.summary = false ∧
    sampleCheckoutA.date = sampleCheckoutA.event.«end» :=
  ⟨(blocked_events_excluded [sampleBlocked, sampleBookingA, sampleBookingB]).1,
   (blocked_events_excluded [sampleBlocked, sampleBookingA, sampleBookingB]).2.1
     sampleCheckoutA (by decide),
   (blocked_events_excluded [sampleBlocked, sampleBookingA, sampleBookingB]).2.2
     sampleCheckoutA (by decide)⟩

/-- C4. Same-day-check-in detection: a checkout produced by the extractor
carries a true flag exactly when some non-blocked event of the whole input
set starts on the calendar day of the checkout date (the triggering event
itself included). -/
theorem same_day_checkin_characterization (events : List ICalEvent)
    (c : ParsedCheckout) (hc : c ∈ extractCheckouts events) :
    c.has_same_day_checkin = true ↔
      ∃ e ∈ events, truncToDay e.start = truncToDay c.date ∧
        isBlocked e.summary = false := by
  have hfields := mem_extractCheckoutsAux (sortByEnd events) (sortByEnd events) c hc
  rw [hfields.2, ← hfields.1, detectSameDayTurnaround_iff]
  constructor
  · rintro ⟨e, he, h1, h2⟩
    exact ⟨e, (sortByEnd_perm events).mem_iff.mp he, h1, h2⟩
  · rintro ⟨e, he, h1, h2⟩
    exact ⟨e, (sortByEnd_perm events).mem_iff.mpr he, h1, h2⟩

/-- Witness for C4: the spec example, where the Jan 12 checkout of Booking
A sees the Jan 12 start of Booking B. -/
theorem same_day_checkin_characterization_witness :
    sampleCheckoutA.has_same_day_checkin = true ↔
      ∃ e ∈ [sampleBookingA, sampleBookingB],
        truncToDay e.start = truncToDay sampleCheckoutA.date ∧
        isBlocked e.summary = false :=
  same_day_checkin_characterization [sampleBookingA, sampleBookingB]
    sampleCheckoutA (by decide)

/-- C5. Next-check-in lookup: a non-blocked event at any position of the
end-sorted sequence yields a checkout whose next check-in date is the
start of the first non-blocked event after that position, and is absent
when no such event exists. -/
theorem next_checkin_from_sorted_position (events : List ICalEvent)
    (l₁ : List ICalEvent) (e : ICalEvent) (l₂ : List ICalEvent)
    (hsort : sortByEnd events = l₁ ++ e :: l₂)
    (hb : isBlocked e.summary = false) :
    ({ date := e.«end»
       event := e
       has_same_day_checkin := detectSameDayTurnaround e.«end» (sortByEnd events)
       next_checkin_date :=
         (l₂.find? fun n => !(isBlocked n.summary)).map (·.start) } :
        ParsedCheckout) ∈ extractCheckouts events := by
  rw [extractCheckouts, hsort]
  exact mem_extractCheckoutsAux_of_decomp (l₁ ++ e :: l₂) e l₂ hb l₁

/-- Witness for C5: the spec example, Booking A at position 0 of the
sorted sequence gets next check-in Jan 12 15:00, the start of Booking B. -/
theorem next_checkin_from_sorted_position_witness :
    ({ date := sampleBookingA.«end»
       event := sampleBookingA
       has_same_day_checkin :=
         detectSameDayTurnaround sampleBookingA.«end»
           (sortByEnd [sampleBookingA, sampleBookingB])
       next_checkin_date :=
         ([sampleBookingB].find? fun n => !(isBlocked n.summary)).map (·.start) } :
        ParsedCheckout) ∈ extractCheckouts [sampleBookingA, sampleBookingB] :=
  next_checkin_from_sorted_position [sampleBookingA, sampleBookingB] []
    sampleBookingA [sampleBookingB] (by decide) (by decide)

/-- Sample checkout dated Jan 31 at midnight, day 30 after the epoch. -/
def sampleJan31 : ParsedCheckout :=
  { date := 30 * msPerDay
    event :=
      { uid := "j", summary := "Booking C", description := ""
        start := 28 * msPerDay, «end» := 30 * msPerDay, location := "" }
    has_same_day_checkin := false
    next_checkin_date := none }

/-- Sample checkout dated Feb 1 at midnight, day 31 after the epoch. -/
def sampleFeb1 : ParsedCheckout :=
  { date := 31 * msPerDay
    event :=
      { uid := "k", summary := "Booking D", description := ""
        start := 29 * msPerDay, «end» := 31 * msPerDay, location := "" }
    has_same_day_checkin := false
    next_checkin_date := none }

/-- C6. Upcoming-window filter boundary: a checkout is kept exactly when
its day-truncated date lies in the inclusive window from the day-truncated
now to now plus the horizon in days; the kept checkouts keep their input
order; and with now at Jan 1 00:00 and a 30-day horizon a Jan 31 checkout
is kept while a Feb 1 checkout is dropped. -/
theorem upcoming_window_inclusive_bounds :
    (∀ (checkouts : List ParsedCheckout) (days now : Nat) (c : ParsedCheckout),
      c ∈ filterUpcomingCheckouts checkouts days now ↔
        c ∈ checkouts ∧ truncToDay now ≤ truncToDay c.date ∧
          truncToDay c.date ≤ truncToDay now + days * msPerDay) ∧
    (∀ (checkouts : List ParsedCheckout) (days now : Nat),
      (filterUpcomingCheckouts checkouts days now).Sublist checkouts) ∧
    filterUpcomingCheckouts [sampleJan31, sampleFeb1] 30 0 = [sampleJan31] := by
  refine ⟨?_, ?_, by decide⟩
  · intro checkouts days now c
    simp [filterUpcomingCheckouts, List.mem_filter, and_assoc]
  · intro checkouts days now
    exact List.filter_sublist _

/-- C9. Sync-marker frame condition: on a successful pass the property row
gets its last-synced marker set to the sync time and its sync error
cleared, all other fields unchanged; on a failed pass only the sync error
is written, the last-synced marker and all other fields unchanged. -/
theorem sync_marker_frame_condition (row : PropertyRow)
    (cleanerId : Option String) (now : Nat) (keys : List Nat)
    (checkOk : Nat → Bool) (insertOk : JobRecord → Bool) :
    (∀ events : List ICalEvent,
      (syncProperty row (Except.ok events) cleanerId now keys
          checkOk insertOk).row =
        { row with last_synced := some now, sync_error := none }) ∧
    (∀ msg : String,
      (syncProperty row (Except.error msg) cleanerId now keys
          checkOk insertOk).row =
        { row with sync_error := some msg } ∧
      (syncProperty row (Except.error msg) cleanerId now keys
          checkOk insertOk).row.last_synced = row.last_synced ∧
      (syncProperty row (Except.error msg) cleanerId now keys
          checkOk insertOk).row.id = row.id ∧
      (syncProperty row (Except.error msg) cleanerId now keys
          checkOk insertOk).row.user_id = row.user_id ∧
      (syncProperty row (Except.error msg) cleanerId now keys
          checkOk insertOk).row.name = row.name ∧
      (syncProperty row (Except.error msg) cleanerId now keys
          checkOk insertOk).row.ical_url = row.ical_url ∧
      (syncProperty row (Except.error msg) cleanerId now keys
          checkOk insertOk).row.active = row.active) :=
  ⟨fun _ => rfl, fun _ => ⟨rfl, rfl, rfl, rfl, rfl, rfl, rfl⟩⟩

/-- C8. Single-job persistence failure isolation: however the per-job
insert calls behave, a property with a good feed still reports success,
every filtered checkout is processed (one outcome each), the jobs_created
count equals the number of jobs actually inserted, which is the number of
created outcomes, and every inserted job passed its insert call — a failed
insert is skipped without stopping the loop or counting. -/
theorem single_job_failure_isolation (row : PropertyRow)
    (events : List ICalEvent) (cleanerId : Option String) (now : Nat)
    (keys : List Nat) (checkOk : Nat → Bool) (insertOk : JobRecord → Bool) :
    (syncProperty row (Except.ok events) cleanerId now keys
        checkOk insertOk).result.success = true ∧
    (syncProperty row (Except.ok events) cleanerId now keys
        checkOk insertOk).outcomes.length =
      (filterUpcomingCheckouts (extractCheckouts events) 30 now).length ∧
    (syncProperty row (Except.ok events) cleanerId now keys
        checkOk insertOk).result.jobs_created =
      (syncProperty row (Except.ok events) cleanerId now keys
        checkOk insertOk).created.length ∧
    (syncProperty row (Except.ok events) cleanerId now keys
        checkOk insertOk).created.length =
      (syncProperty row (Except.ok events) cleanerId now keys
        checkOk insertOk).outcomes.count ReconcileOutcome.created ∧
    ∀ j ∈ (syncProperty row (Except.ok events) cleanerId now keys
        checkOk insertOk).created, insertOk j = true := by
  have hcounts := reconcileAux_counts row.id cleanerId checkOk insertOk
    { keys := keys, created := [], jobs_created := 0 }
    (filterUpcomingCheckouts (extractCheckouts events) 30 now)
  have h1 := hcounts.1
  have h2 := hcounts.2
  simp only [List.length_nil, Nat.zero_add] at h1 h2
  refine ⟨rfl, ?_, ?_, ?_, ?_⟩
  · exact reconcileAux_length row.id cleanerId checkOk insertOk
      { keys := keys, created := [], jobs_created := 0 }
      (filterUpcomingCheckouts (extractCheckouts events) 30 now)
  · exact h2.trans h1.symm
  · exact h1
  · intro j hj
    rcases reconcileAux_created_mem row.id cleanerId checkOk insertOk
        { keys := keys, created := [], jobs_created := 0 }
        (filterUpcomingCheckouts (extractCheckouts events) 30 now) j hj with
      hmem | ⟨hok, -⟩
    · simp at hmem
    · exact hok

/-- Sample property row used by the concrete sync scenarios. -/
def sampleRow : PropertyRow :=
  { id := "p1", user_id := "u1", name := "Test House"
    ical_url := "https://example.com/cal.ics", active := true
    last_synced := none, sync_error := none }

/-- Insert behaviour that fails exactly on day-11 checkout jobs (the Jan
12 checkout of the first sample booking) and succeeds elsewhere. -/
def sampleInsertOk : JobRecord → Bool := fun j => j.checkout_date != 11

/-- The job the sample scenario inserts for the second sample booking. -/
def sampleJobB : JobRecord :=
  { property_id := "p1", cleaner_id := some "c9", checkout_date := 14
    checkin_date := none, status := "pending"
    is_same_day_turnaround := false }

/-- Witness for C8: with the Jan 12 insert failing, the property still
succeeds, both checkouts are processed, exactly the Jan 15 job is created
and counted, and that job passed its insert call. -/
theorem single_job_failure_isolation_witness :
    (syncProperty sampleRow (Except.ok [sampleBookingA, sampleBookingB])
        (some "c9") 0 [] (fun _ => true) sampleInsertOk).result.success = true ∧
    (syncProperty sampleRow (Except.ok [sampleBookingA, sampleBookingB])
        (some "c9") 0 [] (fun _ => true) sampleInsertOk).outcomes.length =
      (filterUpcomingCheckouts
        (extractCheckouts [sampleBookingA, sampleBookingB]) 30 0).length ∧
    (syncProperty sampleRow (Except.ok [sampleBookingA, sampleBookingB])
        (some "c9") 0 [] (fun _ => true) sampleInsertOk).result.jobs_created =
      (syncProperty sampleRow (Except.ok [sampleBookingA, sampleBookingB])
        (some "c9") 0 [] (fun _ => true) sampleInsertOk).created.length ∧
    sampleInsertOk sampleJobB = true :=
  ⟨(single_job_failure_isolation sampleRow [sampleBookingA, sampleBookingB]
      (some "c9") 0 [] (fun _ => true) sampleInsertOk).1,
   (single_job_failure_isolation sampleRow [sampleBookingA, sampleBookingB]
      (some "c9") 0 [] (fun _ => true) sampleInsertOk).2.1,
   (single_job_failure_isolation sampleRow [sampleBookingA, sampleBookingB]
      (some "c9") 0 [] (fun _ => true) sampleInsertOk).2.2.1,
   (single_job_failure_isolation sampleRow [sampleBookingA, sampleBookingB]
      (some "c9") 0 [] (fun _ => true) sampleInsertOk).2.2.2.2 sampleJobB
     (by decide)⟩

/-- Sample checkout on 2024-06-01 at 14:00 UTC; day 19875 after the epoch. -/
def sampleCheckoutJune : ParsedCheckout :=
  { date := 19875 * msPerDay + 14 * 3600000
    event :=
      { uid := "m", summary := "Reserved", description := ""
        start := 19872 * msPerDay, «end» := 19875 * msPerDay + 14 * 3600000
        location := "" }
    has_same_day_checkin := false
    next_checkin_date := none }

/-- C2. Date-only dedup key: when a persisted job key holds the calendar
date of some timestamp, any checkout falling on that same calendar date —
whatever its time of day — is skipped as existing by the reconcile step,
and the whole sync pass creates no job carrying that date key. -/
theorem dedup_key_is_calendar_date (pid : String) (cleanerId : Option String)
    (insertOk : JobRecord → Bool) (st : ReconcileState) (c : ParsedCheckout)
    (tJob : Nat) (hkey : dateOnly tJob ∈ st.keys)
    (hday : dateOnly c.date = dateOnly tJob) :
    processCheckout pid cleanerId (fun _ => true) insertOk st c =
      (st, ReconcileOutcome.skippedExisting) ∧
    ∀ (row : PropertyRow) (events : List ICalEvent) (now : Nat)
      (checkOk : Nat → Bool),
      ∀ j ∈ (syncProperty row (Except.ok events) cleanerId now st.keys
          checkOk insertOk).created,
        j.checkout_date ≠ dateOnly tJob := by
  constructor
  · have hc : st.keys.contains (dateOnly c.date) = true := by
      rw [hday]; simpa using hkey
    rw [processCheckout]
    simp only [Bool.not_true, Bool.false_eq_true, if_false]
    rw [if_pos hc]
  · intro row events now checkOk j hj
    rcases reconcileAux_created_mem row.id cleanerId checkOk insertOk
        { keys := st.keys, created := [], jobs_created := 0 }
        (filterUpcomingCheckouts (extractCheckouts events) 30 now) j hj with
      hmem | ⟨-, hnk⟩
    · simp at hmem
    · intro hEq
      exact hnk (by rw [hEq]; exact hkey)

/-- Witness for C2: a persisted job keyed from 2024-06-01T00:00:00Z blocks
the 2024-06-01T14:00:00Z checkout. -/
theorem dedup_key_is_calendar_date_witness :
    processCheckout "p1" none (fun _ => true) (fun _ => true)
      { keys := [19875], created := [], jobs_created := 0 }
      sampleCheckoutJune =
      ({ keys := [19875], created := [], jobs_created := 0 },
        ReconcileOutcome.skippedExisting) :=
  (dedup_key_is_calendar_date "p1" none (fun _ => true)
    { keys := [19875], created := [], jobs_created := 0 } sampleCheckoutJune
    (19875 * msPerDay) (by decide) (by decide)).1

/-- C1. Idempotence of sync: with the same unchanged feed and a healthy
database, running the property pass a second time from the keys persisted
by the first pass creates zero jobs — every filtered checkout of the
second run is reported skipped-existing. -/
theorem sync_pipeline_idempotent (row : PropertyRow)
    (events : List ICalEvent) (cleanerId : Option String) (now : Nat)
    (keys : List Nat) :
    (syncProperty row (Except.ok events) cleanerId now
        (syncProperty row (Except.ok events) cleanerId now keys
          (fun _ => true) (fun _ => true)).keys
        (fun _ => true) (fun _ => true)).result.jobs_created = 0 ∧
    (syncProperty row (Except.ok events) cleanerId now
        (syncProperty row (Except.ok events) cleanerId now keys
          (fun _ => true) (fun _ => true)).keys
        (fun _ => true) (fun _ => true)).created = [] ∧
    (syncProperty row (Except.ok events) cleanerId now
        (syncProperty row (Except.ok events) cleanerId now keys
          (fun _ => true) (fun _ => true)).keys
        (fun _ => true) (fun _ => true)).outcomes =
      List.replicate
        (filterUpcomingCheckouts (extractCheckouts events) 30 now).length
        ReconcileOutcome.skippedExisting := by
  have hcov : ∀ c ∈ filterUpcomingCheckouts (extractCheckouts events) 30 now,
      dateOnly c.date ∈
        (syncProperty row (Except.ok events) cleanerId now keys
          (fun _ => true) (fun _ => true)).keys := by
    intro c hc
    exact reconcileAux_covers row.id cleanerId
      { keys := keys, created := [], jobs_created := 0 }
      (filterUpcomingCheckouts (extractCheckouts events) 30 now) c hc
  have hskip := reconcileAux_skips row.id cleanerId (fun _ => true)
    { keys := (syncProperty row (Except.ok events) cleanerId now keys
        (fun _ => true) (fun _ => true)).keys
      created := [], jobs_created := 0 }
    (filterUpcomingCheckouts (extractCheckouts events) 30 now) hcov
  refine ⟨?_, ?_, ?_⟩
  · show (reconcileAux row.id cleanerId (fun _ => true) (fun _ => true)
      { keys := (syncProperty row (Except.ok events) cleanerId now keys
          (fun _ => true) (fun _ => true)).keys
        created := [], jobs_created := 0 }
      (filterUpcomingCheckouts (extractCheckouts events) 30 now)).1.jobs_created
        = 0
    rw [hskip]
  · show (reconcileAux row.id cleanerId (fun _ => true) (fun _ => true)
      { keys := (syncProperty row (Except.ok events) cleanerId now keys
          (fun _ => true) (fun _ => true)).keys
        created := [], jobs_created := 0 }
      (filterUpcomingCheckouts (extractCheckouts events) 30 now)).1.created
        = []
    rw [hskip]
  · show (reconcileAux row.id cleanerId (fun _ => true) (fun _ => true)
      { keys := (syncProperty row (Except.ok events) cleanerId now keys
          (fun _ => true) (fun _ => true)).keys
        created := [], jobs_created := 0 }
      (filterUpcomingCheckouts (extractCheckouts events) 30 now)).2
        = List.replicate
            (filterUpcomingCheckouts (extractCheckouts events) 30 now).length
            ReconcileOutcome.skippedExisting
    rw [hskip]

/-- C7. Per-property failure isolation: with three properties whose middle
feed fails, the orchestrator still reports all three in the details,
counts two successes and one failure, each property result is computed
from that property's own inputs alone, the failing property carries the
error message, and the total jobs created is the sum over the two healthy
properties. -/
theorem per_property_failure_isolation (now : Nat) (a b c : SyncInput)
    (msg : String) (evA evC : List ICalEvent)
    (ha : a.feed = Except.ok evA) (hb : b.feed = Except.error msg)
    (hc : c.feed = Except.ok evC) :
    (runSync now [a, b, c]).2.details.length = 3 ∧
    (runSync now [a, b, c]).2.synced = 2 ∧
    (runSync now [a, b, c]).2.errors = 1 ∧
    (runSync now [a, b, c]).1 =
      [syncProperty a.row a.feed a.cleanerId now a.keys a.checkOk a.insertOk,
       syncProperty b.row b.feed b.cleanerId now b.keys b.checkOk b.insertOk,
       syncProperty c.row c.feed c.cleanerId now c.keys c.checkOk c.insertOk] ∧
    (syncProperty b.row b.feed b.cleanerId now b.keys b.checkOk
        b.insertOk).result.success = false ∧
    (syncProperty b.row b.feed b.cleanerId now b.keys b.checkOk
        b.insertOk).result.error = some msg ∧
    (runSync now [a, b, c]).2.jobs_created =
      (syncProperty a.row a.feed a.cleanerId now a.keys a.checkOk
          a.insertOk).result.jobs_created +
        (syncProperty c.row c.feed c.cleanerId now c.keys c.checkOk
          c.insertOk).result.jobs_created := by
  have hsa : (syncProperty a.row a.feed a.cleanerId now a.keys a.checkOk
      a.insertOk).result.success = true := by rw [ha]; rfl
  have hsb : (syncProperty b.row b.feed b.cleanerId now b.keys b.checkOk
      b.insertOk).result.success = false := by rw [hb]; rfl
  have hsberr : (syncProperty b.row b.feed b.cleanerId now b.keys b.checkOk
      b.insertOk).result.error = some msg := by rw [hb]; rfl
  have hsbjobs : (syncProperty b.row b.feed b.cleanerId now b.keys b.checkOk
      b.insertOk).result.jobs_created = 0 := by rw [hb]; rfl
  have hsc : (syncProperty c.row c.feed c.cleanerId now c.keys c.checkOk
      c.insertOk).result.success = true := by rw [hc]; rfl
  refine ⟨rfl, ?_, ?_, rfl, hsb, hsberr, ?_⟩
  · simp [runSync, List.filter_cons, hsa, hsb, hsc]
  · simp [runSync, List.filter_cons, hsa, hsb, hsc]
  · simp only [runSync, List.map_cons, List.map_nil, List.foldl_cons,
      List.foldl_nil, hsbjobs]
    omega

/-- Second sample property row. -/
def sampleRow2 : PropertyRow :=
  { id := "p2", user_id := "u1", name := "Beach Flat"
    ical_url := "https://example.com/cal2.ics", active := true
    last_synced := none, sync_error := none }

/-- Third sample property row. -/
def sampleRow3 : PropertyRow :=
  { id := "p3", user_id := "u1", name := "City Loft"
    ical_url := "https://example.com/cal3.ics", active := true
    last_synced := none, sync_error := none }

/-- First sample orchestrator input: healthy feed with two bookings. -/
def sampleInputA : SyncInput :=
  { row := sampleRow, feed := Except.ok [sampleBookingA, sampleBookingB]
    cleanerId := some "c9", keys := []
    checkOk := fun _ => true, insertOk := fun _ => true }

/-- Second sample orchestrator input: the fetch fails with HTTP 500. -/
def sampleInputB : SyncInput :=
  { row := sampleRow2
    feed := Except.error "Failed to fetch iCal: 500 Internal Server Error"
    cleanerId := none, keys := []
    checkOk := fun _ => true, insertOk := fun _ => true }

/-- Third sample orchestrator input: healthy feed with one booking. -/
def sampleInputC : SyncInput :=
  { row := sampleRow3, feed := Except.ok [sampleBookingB]
    cleanerId := none, keys := []
    checkOk := fun _ => true, insertOk := fun _ => true }

/-- Witness for C7: three concrete properties, the middle fetch failing
with HTTP 500, give attempted three, synced two, one error, and the
failing property carries the fetch error message. -/
theorem per_property_failure_isolation_witness :
    (runSync 0 [sampleInputA, sampleInputB, sampleInputC]).2.details.length
      = 3 ∧
    (runSync 0 [sampleInputA, sampleInputB, sampleInputC]).2.synced = 2 ∧
    (runSync 0 [sampleInputA, sampleInputB, sampleInputC]).2.errors = 1 ∧
    (syncProperty sampleInputB.row sampleInputB.feed sampleInputB.cleanerId 0
        sampleInputB.keys sampleInputB.checkOk
        sampleInputB.insertOk).result.error =
      some "Failed to fetch iCal: 500 Internal Server Error" :=
  ⟨(per_property_failure_isolation 0 sampleInputA sampleInputB sampleInputC
      "Failed to fetch iCal: 500 Internal Server Error"
      [sampleBookingA, sampleBookingB] [sampleBookingB] rfl rfl rfl).1,
   (per_property_failure_isolation 0 sampleInputA sampleInputB sampleInputC
      "Failed to fetch iCal: 500 Internal Server Error"
      [sampleBookingA, sampleBookingB] [sampleBookingB] rfl rfl rfl).2.1,
   (per_property_failure_isolation 0 sampleInputA sampleInputB sampleInputC
      "Failed to fetch iCal: 500 Internal Server Error"
      [sampleBookingA, sampleBookingB] [sampleBookingB] rfl rfl rfl).2.2.1,
   (per_property_failure_isolation 0 sampleInputA sampleInputB sampleInputC
      "Failed to fetch iCal: 500 Internal Server Error"
      [sampleBookingA, sampleBookingB] [sampleBookingB] rfl rfl rfl).2.2.2.2.2.1⟩

/-- C10. Missing-summary default defeats blocked classification: a raw
entry that has a start time but no summary is parsed with the literal
label "Untitled Event", which is not classified as blocked, so the entry
always behaves as a real booking and yields a checkout dated at its end. -/
theorem untitled_event_default_yields_checkout (entries : List RawVEvent)
    (v : RawVEvent) (s : Nat) (hv : v ∈ entries) (hsum : v.summary = none)
    (hstart : v.start = some s) :
    ∃ ev ∈ parseICalData entries,
      ev.summary = "Untitled Event" ∧ ev.start = s ∧
      ev.«end» = v.«end».getD s ∧ isBlocked ev.summary = false ∧
      ∃ c ∈ extractCheckouts (parseICalData entries),
        c.event = ev ∧ c.date = ev.«end» := by
  have hpe : parseEntry v =
      some { uid := jsOrDefault v.uid ""
             summary := "Untitled Event"
             description := jsOrDefault v.description ""
             start := s
             «end» := v.«end».getD s
             location := jsOrDefault v.location "" } := by
    simp [parseEntry, hstart, hsum, jsOrDefault]
  have hev : ({ uid := jsOrDefault v.uid ""
                summary := "Untitled Event"
                description := jsOrDefault v.description ""
                start := s
                «end» := v.«end».getD s
                location := jsOrDefault v.location "" } : ICalEvent) ∈
      parseICalData entries := List.mem_filterMap.mpr ⟨v, hv, hpe⟩
  have hnb : isBlocked "Untitled Event" = false := by decide
  obtain ⟨c, hc, hce, hcd⟩ :=
    exists_checkout_of_mem (parseICalData entries) _ hev hnb
  exact ⟨_, hev, rfl, rfl, rfl, hnb, c, hc, hce, hcd⟩

/-- Raw VEVENT with a start time but no summary. -/
def sampleRawNoSummary : RawVEvent :=
  { uid := some "r1", summary := none, description := none
    start := some (40 * msPerDay + 16 * 3600000)
    «end» := some (42 * msPerDay + 11 * 3600000), location := none }

/-- Witness for C10 on a one-entry feed without a summary. -/
theorem untitled_event_default_yields_checkout_witness :
    ∃ ev ∈ parseICalData [sampleRawNoSummary],
      ev.summary = "Untitled Event" ∧
      ev.start = 40 * msPerDay + 16 * 3600000 ∧
      ev.«end» = sampleRawNoSummary.«end».getD (40 * msPerDay + 16 * 3600000) ∧
      isBlocked ev.summary = false ∧
      ∃ c ∈ extractCheckouts (parseICalData [sampleRawNoSummary]),
        c.event = ev ∧ c.date = ev.«end» :=
  untitled_event_default_yields_checkout [sampleRawNoSummary]
    sampleRawNoSummary (40 * msPerDay + 16 * 3600000) (by decide) rfl rfl
